import Mathlib

/-!
Verification of the portfolio analytics module (src/analytics.py) of
aneber20/portfolio_optimizer_python.

The Python functions are shallow-embedded over exact rationals:

* Python `float` values that can become non-finite through numpy arithmetic
  (NaN from missing data, infinity from division by zero) are modelled as
  `Option Rat`, with `none` standing for any non-finite float.
* Python exceptions (`ZeroDivisionError` from `/` on plain numbers,
  `ValueError` from `int(...)` / `max(...)` / shape mismatches,
  `IndexError` from `.iloc` on an out-of-range position) are modelled with
  `Except PyErr`.
* External market data (the yfinance collaborator) is passed in as explicit
  arguments: a closing-price table for `yf.download(...)['Close']`, a
  per-ticker history function for `Ticker.history`, and a per-ticker pair of
  optional forward/trailing P/E values for `Ticker.info`.
* A Python dict of holdings is modelled as an association list in insertion
  order; a real dict always has pairwise-distinct keys.
* `pandas.pct_change` is modelled without forward-filling (the pandas >= 3
  default): a fractional change is present only when the price is present on
  both the row and its predecessor.
-/

namespace Portfolio

/-- Python exception kinds that the embedded code can raise. -/
inductive PyErr where
  | zeroDivision
  | valueError
  | indexError
deriving DecidableEq, Repr

/-- A Python/numpy float: `some q` is the finite value `q`, `none` is any
non-finite float (NaN or infinity). -/
abbrev PyFloat := Option ℚ

/-- A value a Python function can return when it mixes floats and error
strings in its success type (`calculate_portfolio_pe_ratio` and
`calculate_52_week_return` return the literal string on their no-data path). -/
inductive PyValue (α : Type) where
  | str (s : String)
  | num (x : α)
deriving DecidableEq, Repr

instance {ε α : Type} [DecidableEq ε] [DecidableEq α] : DecidableEq (Except ε α) := fun a b =>
  match a, b with
  | .ok x, .ok y => if h : x = y then .isTrue (by rw [h]) else .isFalse (by simp [h])
  | .error x, .error y => if h : x = y then .isTrue (by rw [h]) else .isFalse (by simp [h])
  | .ok _, .error _ => .isFalse (by simp)
  | .error _, .ok _ => .isFalse (by simp)

/-- Python `str.endswith`, on the character list of the string. -/
def strEndsWith (s suffix : String) : Bool :=
  suffix.data.isSuffixOf s.data

/-- The Python slice `s[:-k]`, on the character list of the string. -/
def strDropRight (s : String) (k : Nat) : String :=
  ⟨s.data.take (s.data.length - k)⟩

/-- Plain Python division of numbers: raises `ZeroDivisionError` on a zero
denominator. -/
def pyDivQ (a b : ℚ) : Except PyErr ℚ :=
  if b = 0 then .error .zeroDivision else .ok (a / b)

/-- Division of numpy float64 scalars: a zero denominator silently produces a
non-finite value (infinity or NaN) instead of raising. -/
def npDivQ (a b : ℚ) : PyFloat :=
  if b = 0 then none else some (a / b)

/-- Subtraction on numpy floats; any non-finite operand contaminates. -/
def pfSub (a b : PyFloat) : PyFloat :=
  match a, b with
  | some x, some y => some (x - y)
  | _, _ => none

/-- Division on numpy floats; non-finite operands and zero denominators both
yield a non-finite result. -/
def pfDiv (a b : PyFloat) : PyFloat :=
  match a, b with
  | some x, some y => if y = 0 then none else some (x / y)
  | _, _ => none

/-- Addition on numpy floats; `NaN + x = NaN`. -/
def pfAdd (a b : PyFloat) : PyFloat :=
  match a, b with
  | some x, some y => some (x + y)
  | _, _ => none

/-- `sum(v_i * w_i)` over numpy floats with exact weights: one non-finite
term makes the whole sum non-finite (in IEEE arithmetic even `NaN * 0 = NaN`). -/
def pfWeightedSum (vs : List PyFloat) (ws : List ℚ) : PyFloat :=
  (List.zipWith (fun v w => v.map (fun x => x * w)) vs ws).foldr pfAdd (some 0)

/-- `numpy.average(values, weights=ws)`: raises `ZeroDivisionError` when the
weights sum to zero, otherwise divides the weighted sum by the weight total
(propagating NaN from the values). -/
def npAverageF (vs : List PyFloat) (ws : List ℚ) : Except PyErr PyFloat :=
  if ws.sum = 0 then .error .zeroDivision
  else .ok (pfDiv (pfWeightedSum vs ws) (some ws.sum))

/-- `numpy.average` on finite values and weights. -/
def npAverageQ (vs : List ℚ) (ws : List ℚ) : Except PyErr ℚ :=
  if ws.sum = 0 then .error .zeroDivision
  else .ok ((List.zipWith (fun v w => v * w) vs ws).sum / ws.sum)

/-- A holdings dict `ticker -> dollar amount`, in insertion order. -/
abbrev Holdings := List (String × ℚ)

/-- `sum(tickers_and_holdings.values())`. -/
def totalValue (h : Holdings) : ℚ :=
  (h.map Prod.snd).sum

/-- Lines 27-28 (and 111, 121) of analytics.py:
`weights = [tickers_and_holdings[t]/total_value for t in tickers]`.
Plain Python division raises `ZeroDivisionError` on the first element when the
total is zero; an empty dict yields an empty list without dividing. -/
def portfolio_weights (h : Holdings) : Except PyErr (List ℚ) :=
  if h ≠ [] ∧ totalValue h = 0 then .error .zeroDivision
  else .ok (h.map (fun q => q.2 / totalValue h))

/-- Model of CPython `int(s)` for strings without surrounding whitespace,
underscores, or non-ASCII digits: `none` means `int` raises `ValueError`. -/
def digitsVal (l : List Char) : Option Nat :=
  if l ≠ [] ∧ l.all Char.isDigit then
    some (l.foldl (fun acc c => 10 * acc + (c.toNat - 48)) 0)
  else none

/-- CPython `int(s)` on a string: optional sign followed by digits. -/
def pyInt (s : String) : Option Int :=
  match s.data with
  | '-' :: rest => (digitsVal rest).map (fun n => -(n : Int))
  | '+' :: rest => (digitsVal rest).map (fun n => (n : Int))
  | l => (digitsVal l).map (fun n => (n : Int))

/-- Lines 135-146 of analytics.py: `_period_to_days`. The suffixes are tried
in source order; `int(...)` on a malformed prefix raises `ValueError`. -/
def _period_to_days (period : String) : Except PyErr Int :=
  if strEndsWith period "y" then
    match pyInt (strDropRight period 1) with
    | some n => .ok (n * 252)
    | none => .error .valueError
  else if strEndsWith period "mo" then
    match pyInt (strDropRight period 2) with
    | some n => .ok (n * 21)
    | none => .error .valueError
  else if strEndsWith period "wk" then
    match pyInt (strDropRight period 2) with
    | some n => .ok (n * 5)
    | none => .error .valueError
  else if strEndsWith period "d" then
    match pyInt (strDropRight period 1) with
    | some n => .ok n
    | none => .error .valueError
  else .ok 0

/-- A closing-price table as returned by `yf.download(...)['Close']`: one
column per ticker (in the frame's own column order), rows ascending by date;
a missing entry is NaN. -/
structure PriceTable where
  tickers : List String
  rows : List (List (Option ℚ))

/-- One row of fractional changes against the previous row: present only when
the price is present on both rows (and the base price is nonzero, which in
numpy would give a non-finite change). -/
def pctRow (prev cur : List (Option ℚ)) : List (Option ℚ) :=
  List.zipWith (fun p c =>
    match p, c with
    | some a, some b => if a = 0 then none else some ((b - a) / a)
    | _, _ => none) prev cur

def pctRows (prev : List (Option ℚ)) : List (List (Option ℚ)) → List (List (Option ℚ))
  | [] => []
  | c :: cs => pctRow prev c :: pctRows c cs

/-- `DataFrame.pct_change()` without forward-filling: the first row is all
NaN, each later row is the change against its predecessor. -/
def pct_change : List (List (Option ℚ)) → List (List (Option ℚ))
  | [] => []
  | r :: rs => r.map (fun _ => (none : Option ℚ)) :: pctRows r rs

/-- The pairwise-complete observations of two return columns, as pandas
`DataFrame.cov` aligns them: the rows where both entries are present. -/
def colPairs (ret : List (List (Option ℚ))) (j k : Nat) : List (ℚ × ℚ) :=
  ret.filterMap (fun r =>
    match r.getD j none, r.getD k none with
    | some x, some y => some (x, y)
    | _, _ => none)

/-- pandas sample covariance (ddof = 1) of paired observations: NaN when
fewer than 2 pairs exist. -/
def sampleCov (ps : List (ℚ × ℚ)) : Option ℚ :=
  if ps.length < 2 then none
  else
    let n : ℚ := ps.length
    let mx := (ps.map Prod.fst).sum / n
    let my := (ps.map Prod.snd).sum / n
    some ((ps.map (fun p => (p.1 - mx) * (p.2 - my))).sum / (n - 1))

/-- One entry of `returns.cov() * 252` (the annualized covariance matrix). -/
def annCov (ret : List (List (Option ℚ))) (j k : Nat) : Option ℚ :=
  (sampleCov (colPairs ret j k)).map (fun c => c * 252)

/-- `weights.T @ cov_matrix @ weights` against an m-by-m covariance matrix:
`ValueError` on a dimension mismatch; NaN as soon as any matrix entry is NaN
(in IEEE arithmetic even `NaN * 0 = NaN`), otherwise the exact quadratic
form. -/
def quadForm (cov : Nat → Nat → Option ℚ) (m : Nat) (w : List ℚ) :
    Except PyErr (Option ℚ) :=
  if w.length = m then
    .ok (if (List.range m).all (fun j => (List.range m).all (fun k => (cov j k).isSome)) then
      some ((List.range m).map (fun j =>
        ((List.range m).map (fun k => w.getD j 0 * (cov j k).getD 0 * w.getD k 0)).sum)).sum
    else none)
  else .error .valueError

/-- `np.sqrt` applied to the portfolio variance: NaN on NaN, NaN on a
negative input (numerically possible because pairwise-deleted covariance
matrices need not be positive semidefinite). -/
noncomputable def npSqrt (v : Option ℚ) : Option ℝ :=
  match v with
  | none => none
  | some x => if x < 0 then none else some (Real.sqrt x)

/-- Lines 8-33 of analytics.py: `calculate_portfolio_volatility`, with the
downloaded close table passed in. Daily returns, annualized covariance,
weights, quadratic form, square root. -/
noncomputable def calculate_portfolio_volatility (data : PriceTable) (h : Holdings) :
    Except PyErr (Option ℝ) := do
  let ret := pct_change data.rows
  let covm := annCov ret
  let w ← portfolio_weights h
  let v ← quadForm covm data.tickers.length w
  pure (npSqrt v)

/-- pandas `Series.mean` of one returns column, skipping NaN; NaN when the
column has no observations at all. -/
def colMean (ret : List (List (Option ℚ))) (j : Nat) : Option ℚ :=
  let xs := ret.filterMap (fun r => r.getD j none)
  if xs.length = 0 then none else some (xs.sum / (xs.length : ℚ))

/-- `np.sum(mean_returns * weights) * 252` (line 122): `ValueError` when the
weight vector's length differs from the column count; NaN as soon as any
column mean is NaN. -/
def seriesDot (means : Nat → Option ℚ) (m : Nat) (w : List ℚ) :
    Except PyErr (Option ℚ) :=
  if w.length = m then
    .ok (if (List.range m).all (fun j => (means j).isSome) then
      some ((((List.range m).map (fun j => (means j).getD 0 * w.getD j 0)).sum) * 252)
    else none)
  else .error .valueError

/-- The final division `(portfolio_return - risk_free_rate) /
portfolio_volatility` (line 129) on numpy floats, with the volatility being
`np.sqrt v`: the quotient is finite exactly when the return is finite and
`v > 0`; at `v = 0` the division by zero silently produces infinity or NaN,
and at NaN or negative `v` the volatility itself is NaN. -/
noncomputable def sharpeDiv (pret : Option ℚ) (rf : ℚ) (v : Option ℚ) : Option ℝ :=
  match pret, v with
  | some p, some vv => if vv ≤ 0 then none else some (((p - rf : ℚ) : ℝ) / Real.sqrt vv)
  | _, _ => none

/-- Lines 100-131 of analytics.py: `calculate_sharpe_ratio`, with the
downloaded close table passed in. -/
noncomputable def calculate_sharpe_ratio (data : PriceTable) (h : Holdings)
    (risk_free_rate : ℚ) : Except PyErr (Option ℝ) := do
  let ret := pct_change data.rows
  let w ← portfolio_weights h
  let pret ← seriesDot (colMean ret) data.tickers.length w
  let covm := annCov ret
  let v ← quadForm covm data.tickers.length w
  pure (sharpeDiv pret risk_free_rate v)

/-- `calculate_sharpe_ratio` with its default argument `risk_free_rate=0.01`. -/
noncomputable def calculate_sharpe_ratio_default (data : PriceTable) (h : Holdings) :
    Except PyErr (Option ℝ) :=
  calculate_sharpe_ratio data h (1 / 100)

/-- Lines 121 and 125-126 of `calculate_sharpe_ratio` in isolation: the
annualized portfolio volatility value that the Sharpe computation builds
internally (`np.sqrt(weights.T @ cov_matrix @ weights)` over the same
returns table). -/
noncomputable def sharpe_internal_volatility (data : PriceTable) (h : Holdings) :
    Except PyErr (Option ℝ) := do
  let ret := pct_change data.rows
  let w ← portfolio_weights h
  let covm := annCov ret
  let v ← quadForm covm data.tickers.length w
  pure (npSqrt v)

/-- `Ticker.info`'s two P/E fields per ticker: (forwardPE, trailingPE);
`none` is an absent field. -/
abbrev PEInfo := String → Option ℚ × Option ℚ

/-- Python `a or b` on an optional number: a present 0 is falsy and falls
through to the second operand. -/
def pyOr (a b : Option ℚ) : Option ℚ :=
  match a with
  | some x => if x = 0 then b else some x
  | none => b

/-- Lines 50-56: the per-ticker loop of `calculate_portfolio_pe_ratio`,
accumulating the usable ratios and their weights; the weight division raises
`ZeroDivisionError` when the total is zero. -/
def peLoop (info : PEInfo) (total : ℚ) : Holdings → Except PyErr (List ℚ × List ℚ)
  | [] => .ok ([], [])
  | q :: rest =>
    match pyOr (info q.1).1 (info q.1).2 with
    | some pe => do
      let w ← pyDivQ q.2 total
      let pr ← peLoop info total rest
      .ok (pe :: pr.1, w :: pr.2)
    | none => peLoop info total rest

/-- Lines 36-63 of analytics.py: `calculate_portfolio_pe_ratio`, with the
per-ticker info fields passed in. Returns the literal error string when no
ticker has a usable ratio. -/
def calculate_portfolio_pe_ratio (info : PEInfo) (h : Holdings) :
    Except PyErr (PyValue ℚ) := do
  let total := totalValue h
  let pr ← peLoop info total h
  if pr.1 = [] then
    .ok (.str "Error: No valid P/E ratios found for the given tickers")
  else do
    let v ← npAverageQ pr.1 pr.2
    .ok (.num v)

/-- `Ticker.history(...)['Close']` per ticker or per period label: ascending
closing prices, `[]` when the history is empty. -/
abbrev HistFn := String → List ℚ

/-- Lines 80-90: the per-ticker loop of `calculate_52_week_return`. The
return `(end - start) / start` is numpy-float arithmetic (non-finite rather
than raising when the start price is zero); the weight division is plain
Python division. -/
def retLoop (hist : HistFn) (total : ℚ) : Holdings → Except PyErr (List PyFloat × List ℚ)
  | [] => .ok ([], [])
  | q :: rest =>
    if (hist q.1).isEmpty then retLoop hist total rest
    else do
      let s := (hist q.1).headD 0
      let e := (hist q.1).getLastD 0
      let w ← pyDivQ q.2 total
      let pr ← retLoop hist total rest
      .ok (npDivQ (e - s) s :: pr.1, w :: pr.2)

/-- Lines 66-97 of analytics.py: `calculate_52_week_return`, with the
per-ticker histories passed in. Returns the literal error string when no
ticker has any data. -/
def calculate_52_week_return (hist : HistFn) (h : Holdings) :
    Except PyErr (PyValue PyFloat) := do
  let total := totalValue h
  let pr ← retLoop hist total h
  if pr.1 = [] then
    .ok (.str "Error: No valid returns found for the given tickers")
  else do
    let v ← npAverageF pr.1 pr.2
    .ok (.num v)

/-- Lines 149-165 of analytics.py: `fetch_sp500_returns`, with the
benchmark's per-period histories passed in. `hist['Close'].iloc[0]` raises
`IndexError` on an empty history, aborting the whole loop. -/
def fetch_sp500_returns (hist : HistFn) : List String → Except PyErr (List (String × PyFloat))
  | [] => .ok []
  | p :: ps =>
    if (hist p).isEmpty then .error .indexError
    else do
      let s := (hist p).headD 0
      let e := (hist p).getLastD 0
      let rest ← fetch_sp500_returns hist ps
      .ok ((p, npDivQ (e - s) s) :: rest)

/-- Line 177: `{p: _period_to_days(p) for p in periods}`, evaluated left to
right; the first malformed label raises. (A Python dict would collapse
duplicate labels; the embedding keeps the list, which agrees with the dict
whenever the labels are distinct.) -/
def resolveAll : List String → Except PyErr (List (String × Int))
  | [] => .ok []
  | p :: ps => do
    let d ← _period_to_days p
    let rest ← resolveAll ps
    .ok ((p, d) :: rest)

/-- Line 178: `max(period_days.values())` — raises `ValueError` on an empty
sequence. -/
def listMaxInt : List Int → Except PyErr Int
  | [] => .error .valueError
  | x :: xs => .ok (xs.foldl max x)

/-- `DataFrame.iloc[i]` positional row access with negative-index wrapping;
out of range raises `IndexError`. -/
def pandasIloc (rows : List (List (Option ℚ))) (i : Int) : Except PyErr (List (Option ℚ)) :=
  if 0 ≤ i then
    if i < (rows.length : Int) then .ok (rows.getD i.toNat []) else .error .indexError
  else
    if 0 ≤ (rows.length : Int) + i then .ok (rows.getD ((rows.length : Int) + i).toNat [])
    else .error .indexError

/-- Lines 192-196: the inner per-ticker loop of `fetch_portfolio_returns`.
`ticker in start_prices` is pandas index membership, i.e. the ticker is a
column of the table; the return arithmetic is numpy-float, the weight
division is plain Python division. -/
def tickerLoop (data : PriceTable) (startRow endRow : List (Option ℚ)) (total : ℚ) :
    Holdings → Except PyErr (List PyFloat × List ℚ)
  | [] => .ok ([], [])
  | q :: rest =>
    if q.1 ∈ data.tickers then do
      let s := startRow.getD (data.tickers.indexOf q.1) none
      let e := endRow.getD (data.tickers.indexOf q.1) none
      let w ← pyDivQ q.2 total
      let pr ← tickerLoop data startRow endRow total rest
      .ok (pfDiv (pfSub e s) s :: pr.1, w :: pr.2)
    else tickerLoop data startRow endRow total rest

/-- Lines 184-202: the body of the per-period loop of
`fetch_portfolio_returns`: `None` when the period resolves to 0 (falsy) or
needs more rows than the table has, otherwise the sliced weighted return
(`None` when no holdings ticker is a table column). -/
def periodEntry (data : PriceTable) (h : Holdings) (total : ℚ) (days : Int) :
    Except PyErr (Option PyFloat) :=
  if days ≠ 0 ∧ days ≤ (data.rows.length : Int) then do
    let startRow ← pandasIloc data.rows (-days)
    let endRow ← pandasIloc data.rows (-1)
    let pr ← tickerLoop data startRow endRow total h
    if pr.1 = [] then .ok none
    else do
      let v ← npAverageF pr.1 pr.2
      .ok (some v)
  else .ok none

def goPeriods (data : PriceTable) (h : Holdings) (total : ℚ) :
    List (String × Int) → Except PyErr (List (String × Option PyFloat))
  | [] => .ok []
  | pd :: rest => do
    let e ← periodEntry data h total pd.2
    let restL ← goPeriods data h total rest
    .ok ((pd.1, e) :: restL)

/-- Lines 171-203 of analytics.py: `fetch_portfolio_returns`, with the close
table of the single amortized download passed in. -/
def fetch_portfolio_returns (periods : List String) (h : Holdings) (data : PriceTable) :
    Except PyErr (List (String × Option PyFloat)) := do
  let total := totalValue h
  let pd ← resolveAll periods
  let _ ← listMaxInt (pd.map Prod.snd)
  goPeriods data h total pd

/-- The trading-day count a period label resolves to, with 0 for the raising
case (used only to state theorems whose hypotheses exclude that case). -/
def resolveD (p : String) : Int :=
  match _period_to_days p with
  | .ok d => d
  | .error _ => 0

/-- The holdings tickers that are columns of the table. -/
def survivors (data : PriceTable) (h : Holdings) : Holdings :=
  h.filter (fun q => q.1 ∈ data.tickers)

/-- The per-period value of the batch in closed form, for `1 ≤ days ≤ row
count`: `None` when no holdings ticker is a table column, otherwise the
weighted return of the surviving tickers, renormalized over the survivors'
own dollar total. -/
def sliceReturn (data : PriceTable) (h : Holdings) (days : Int) : Option PyFloat :=
  let sr := data.rows.getD (data.rows.length - days.toNat) []
  let er := data.rows.getD (data.rows.length - 1) []
  let surv := survivors data h
  if surv.isEmpty then none
  else
    some (pfDiv
      (pfWeightedSum
        (surv.map (fun q =>
          pfDiv (pfSub (er.getD (data.tickers.indexOf q.1) none)
                       (sr.getD (data.tickers.indexOf q.1) none))
                (sr.getD (data.tickers.indexOf q.1) none)))
        (surv.map Prod.snd))
      (some (surv.map Prod.snd).sum))

/-- The number of rows on which both column `j` and column `k` carry a
present price — the overlapping (common-date) price observations of the two
tickers. -/
def pairObs (rows : List (List (Option ℚ))) (j k : Nat) : Nat :=
  (rows.filter (fun r => (r.getD j none).isSome && (r.getD k none).isSome)).length

/-- `(last_close - first_close) / first_close` of one price series. -/
def windowReturn (l : List ℚ) : ℚ :=
  (l.getLastD 0 - l.headD 0) / l.headD 0

/-- The holdings tickers with a non-empty price history. -/
def validReturns (hist : HistFn) (h : Holdings) : Holdings :=
  h.filter (fun q => !(hist q.1).isEmpty)

/-- The holdings tickers with a usable P/E under the code's truthiness rule. -/
def validRatios (info : PEInfo) (h : Holdings) : Holdings :=
  h.filter (fun q => (pyOr (info q.1).1 (info q.1).2).isSome)

/-- The ratio the code picks for a ticker (meaningful on `validRatios`). -/
def peOf (info : PEInfo) (t : String) : ℚ :=
  (pyOr (info t).1 (info t).2).getD 0

lemma except_error_bind {ε α β : Type} (e : ε) (f : α → Except ε β) :
    (Except.error e : Except ε α) >>= f = .error e := rfl

lemma except_ok_bind {ε α β : Type} (a : α) (f : α → Except ε β) :
    (Except.ok a : Except ε α) >>= f = f a := rfl

lemma except_pure {ε α : Type} (a : α) : (pure a : Except ε α) = .ok a := rfl

attribute [simp] except_error_bind except_ok_bind except_pure

lemma sum_map_snd_div (l : List (String × ℚ)) (t : ℚ) :
    (l.map (fun q => q.2 / t)).sum = (l.map Prod.snd).sum / t := by
  induction l with
  | nil => simp
  | cons a l ih => simp [ih, add_div]

/-- Claim C3: for every non-empty holdings mapping with positive total value,
the weight vector (each entry the ticker's dollar amount divided by the total,
in iteration order) sums to 1.0 within 1e-9. Over the exact rationals of the
embedding the sum is exactly 1. -/
theorem C3_weights_sum_to_one (h : Holdings) (hne : h ≠ []) (hpos : 0 < totalValue h) :
    ∃ w, portfolio_weights h = .ok w ∧ |w.sum - 1| ≤ 1 / 1000000000 := by
  refine ⟨h.map (fun q => q.2 / totalValue h), ?_, ?_⟩
  · have : ¬(h ≠ [] ∧ totalValue h = 0) := by
      rintro ⟨-, h0⟩
      exact absurd h0 (ne_of_gt hpos)
    simp [portfolio_weights, this]
  · rw [sum_map_snd_div]
    rw [show (h.map Prod.snd).sum = totalValue h from rfl]
    rw [div_self (ne_of_gt hpos)]
    norm_num

/-- Witness for C3 at the concrete holdings `[("A", 3), ("B", 7)]`. -/
theorem C3_witness :
    ∃ w, portfolio_weights [("A", 3), ("B", 7)] = .ok w ∧ |w.sum - 1| ≤ 1 / 1000000000 :=
  C3_weights_sum_to_one [("A", 3), ("B", 7)] (by simp) (by norm_num [totalValue])

/-- Claim C6 counterexample: `_period_to_days` is not total. On the string
`"xy"` the suffix `'y'` is recognized and `int("x")` raises `ValueError`, so
the resolver raises instead of returning the sentinel 0 that the claim
promises for malformed prefixes. -/
theorem C6_counterexample : _period_to_days "xy" = .error .valueError := by decide

/-- Claim C6 (amended): the resolver returns the sentinel 0 exactly when no
suffix among `y`, `mo`, `wk`, `d` matches; with a matching suffix it returns
the parsed (multi-digit) prefix times the suffix base (252, 21, 5, 1,
suffixes tried in source order), and raises `ValueError` when the prefix does
not parse as an integer. -/
theorem C6_period_resolver (s : String) (n : Int) :
    (strEndsWith s "y" = false → strEndsWith s "mo" = false →
      strEndsWith s "wk" = false → strEndsWith s "d" = false →
      _period_to_days s = .ok 0)
    ∧ (strEndsWith s "y" = true → pyInt (strDropRight s 1) = some n →
      _period_to_days s = .ok (n * 252))
    ∧ (strEndsWith s "y" = true → pyInt (strDropRight s 1) = none →
      _period_to_days s = .error .valueError)
    ∧ (strEndsWith s "y" = false → strEndsWith s "mo" = true →
      pyInt (strDropRight s 2) = some n → _period_to_days s = .ok (n * 21))
    ∧ (strEndsWith s "y" = false → strEndsWith s "mo" = false →
      strEndsWith s "wk" = true → pyInt (strDropRight s 2) = some n →
      _period_to_days s = .ok (n * 5))
    ∧ (strEndsWith s "y" = false → strEndsWith s "mo" = false →
      strEndsWith s "wk" = false → strEndsWith s "d" = true →
      pyInt (strDropRight s 1) = some n → _period_to_days s = .ok n) := by
  refine ⟨?_, ?_, ?_, ?_, ?_, ?_⟩
  · intro h1 h2 h3 h4
    simp [_period_to_days, h1, h2, h3, h4]
  · intro h1 h2
    simp [_period_to_days, h1, h2]
  · intro h1 h2
    simp [_period_to_days, h1, h2]
  · intro h1 h2 h3
    simp [_period_to_days, h1, h2, h3]
  · intro h1 h2 h3 h4
    simp [_period_to_days, h1, h2, h3, h4]
  · intro h1 h2 h3 h4 h5
    simp [_period_to_days, h1, h2, h3, h4, h5]

/-- Witness for C6 at the multi-digit label `"10mo"`: the resolver accepts
the two-digit prefix and returns `10 * 21 = 210`. -/
theorem C6_witness : _period_to_days "10mo" = .ok 210 :=
  (C6_period_resolver "10mo" 10).2.2.2.1 (by decide) (by decide) (by decide)

/-- Claim C10: the annualized volatility computed inside
`calculate_sharpe_ratio` (lines 121, 125-126) and the one returned by
`calculate_portfolio_volatility` (lines 21-31) are the same computation on
the same price table and holdings: identical daily-return table, identical
annualized covariance, identical weights, identical quadratic form and
square root, including which exception is raised when. -/
theorem C10_sharpe_vol_equals_standalone_vol (data : PriceTable) (h : Holdings) :
    sharpe_internal_volatility data h = calculate_portfolio_volatility data h := rfl

/-- Claim C9 counterexample: `fetch_sp500_returns` has no per-period guard.
With the benchmark history present for `"1y"` but empty for `"6mo"`,
`hist['Close'].iloc[0]` raises `IndexError` and the whole batch fails — the
`"1y"` result is lost too, contradicting the claimed per-period
unavailable-result semantics. -/
theorem C9_counterexample :
    fetch_sp500_returns (fun p => if p = "1y" then [100, 110] else []) ["1y", "6mo"] =
      .error .indexError := by
  simp [fetch_sp500_returns]

/-- Claim C9 (amended): when every requested period's benchmark history is
non-empty, the fetcher returns one value per requested period, in order,
equal to `(last_close - first_close) / first_close` of that period's
history; but a period whose history is empty raises `IndexError` and aborts
the whole batch (there is no per-period unavailable result). -/
theorem C9_per_period_when_all_available (hist : HistFn) (periods : List String)
    (hav : ∀ p ∈ periods, hist p ≠ []) :
    fetch_sp500_returns hist periods =
      .ok (periods.map (fun p => (p, npDivQ ((hist p).getLastD 0 - (hist p).headD 0)
        ((hist p).headD 0)))) := by
  induction periods with
  | nil => simp [fetch_sp500_returns]
  | cons p ps ih =>
    have h1 : ¬(hist p).isEmpty := by
      simp [List.isEmpty_iff]
      exact hav p (List.mem_cons_self p ps)
    have h2 := ih (fun q hq => hav q (List.mem_cons_of_mem p hq))
    simp [fetch_sp500_returns, h1, h2]

/-- Witness for C9 with two periods whose histories are both available. -/
theorem C9_witness :
    fetch_sp500_returns (fun p => if p = "1y" then [100, 110] else [50, 60]) ["1y", "6mo"] =
      .ok [("1y", some (1 / 10)), ("6mo", some (1 / 5))] := by
  have hd : ("6mo" : String) ≠ "1y" := by decide
  rw [C9_per_period_when_all_available]
  · norm_num [npDivQ, hd]
  · intro p hp
    fin_cases hp <;> simp [hd]

lemma peLoop_zero (info : PEInfo) (h : Holdings)
    (hq : ∃ q ∈ h, (pyOr (info q.1).1 (info q.1).2).isSome) :
    peLoop info 0 h = .error .zeroDivision := by
  induction h with
  | nil => simp at hq
  | cons a t ih =>
    obtain ⟨q, hm, hs⟩ := hq
    cases hpe : pyOr (info a.1).1 (info a.1).2 with
    | some pe => simp [peLoop, hpe, pyDivQ]
    | none =>
      rcases List.mem_cons.1 hm with h1 | h1
      · subst h1
        rw [hpe] at hs
        simp at hs
      · simpa [peLoop, hpe] using ih ⟨q, h1, hs⟩

lemma retLoop_zero (hist : HistFn) (h : Holdings)
    (hq : ∃ q ∈ h, hist q.1 ≠ []) :
    retLoop hist 0 h = .error .zeroDivision := by
  induction h with
  | nil => simp at hq
  | cons a t ih =>
    obtain ⟨q, hm, hs⟩ := hq
    by_cases hpe : (hist a.1).isEmpty
    · rcases List.mem_cons.1 hm with h1 | h1
      · subst h1
        rw [List.isEmpty_iff] at hpe
        exact absurd hpe hs
      · simpa [retLoop, hpe] using ih ⟨q, h1, hs⟩
    · simp [retLoop, hpe, pyDivQ]

/-- Claim C8 counterexample: there is no `EmptyPortfolio` error anywhere in
the code. With non-empty holdings of zero total value and a ticker that has
a P/E, the weighted-P/E operation reaches `tickers_and_holdings[ticker] /
total_value` and raises `ZeroDivisionError` — exactly the crash the claim
says is guarded against. -/
theorem C8_counterexample :
    calculate_portfolio_pe_ratio (fun _ => (some 20, none)) [("A", 0)] =
      .error .zeroDivision := by
  norm_num [calculate_portfolio_pe_ratio, peLoop, pyOr, pyDivQ, totalValue]

/-- Claim C8 (amended): no operation returns a typed `EmptyPortfolio`
failure. For non-empty holdings whose total dollar value is zero, the
volatility and Sharpe operations raise `ZeroDivisionError` in the weight
comprehension, and the weighted-P/E (resp. 52-week-return) operation raises
`ZeroDivisionError` as soon as some ticker has a usable ratio (resp. a
non-empty history); with no such ticker those two return their error
strings, and empty holdings never reach a division at all. -/
theorem C8_zero_total_divides_by_zero (info : PEInfo) (hist : HistFn) (data : PriceTable)
    (h : Holdings) (rf : ℚ) (hne : h ≠ []) (h0 : totalValue h = 0) :
    ((∃ q ∈ h, (pyOr (info q.1).1 (info q.1).2).isSome) →
      calculate_portfolio_pe_ratio info h = .error .zeroDivision)
    ∧ ((∃ q ∈ h, hist q.1 ≠ []) →
      calculate_52_week_return hist h = .error .zeroDivision)
    ∧ calculate_portfolio_volatility data h = .error .zeroDivision
    ∧ calculate_sharpe_ratio data h rf = .error .zeroDivision := by
  have hw : portfolio_weights h = .error .zeroDivision := by
    simp [portfolio_weights, hne, h0]
  refine ⟨?_, ?_, ?_, ?_⟩
  · intro hq
    have hz := peLoop_zero info h hq
    simp [calculate_portfolio_pe_ratio, h0, hz]
  · intro hq
    have hz := retLoop_zero hist h hq
    simp [calculate_52_week_return, h0, hz]
  · simp [calculate_portfolio_volatility, hw]
  · simp [calculate_sharpe_ratio, hw]

/-- Witness for C8 at the concrete zero-total holdings `[("A", 0)]`: all
four metric operations raise `ZeroDivisionError`. -/
theorem C8_witness :
    calculate_portfolio_pe_ratio (fun _ => (some 20, none)) [("A", 0)] = .error .zeroDivision
    ∧ calculate_52_week_return (fun _ => [1, 2]) [("A", 0)] = .error .zeroDivision
    ∧ calculate_portfolio_volatility ⟨["A"], []⟩ [("A", 0)] = .error .zeroDivision
    ∧ calculate_sharpe_ratio ⟨["A"], []⟩ [("A", 0)] (1 / 100) = .error .zeroDivision := by
  have hc := C8_zero_total_divides_by_zero (fun _ => (some 20, none)) (fun _ => [1, 2])
    ⟨["A"], []⟩ [("A", 0)] (1 / 100) (by simp) (by norm_num [totalValue])
  exact ⟨hc.1 ⟨("A", 0), by simp, by simp [pyOr]⟩,
    hc.2.1 ⟨("A", 0), by simp, by simp⟩, hc.2.2.1, hc.2.2.2⟩

/-- Claim C2 counterexample: there is no `UndefinedSharpe` failure in the
code. On a table of constant prices every daily return is 0, the annualized
variance is exactly 0, and `calculate_sharpe_ratio` divides by the zero
volatility: numpy silently produces a non-finite float (`.ok none` in the
embedding) instead of the distinct failure the claim requires. -/
theorem C2_counterexample :
    calculate_sharpe_ratio ⟨["A"], [[some 1], [some 1], [some 1]]⟩ [("A", 1)] (1 / 100) =
      .ok none := by
  have hw : portfolio_weights [("A", 1)] = .ok [1] := by
    norm_num [portfolio_weights, totalValue]
  have hp : seriesDot (colMean (pct_change [[some 1], [some 1], [some 1]])) 1 [1] =
      .ok (some 0) := by
    norm_num [seriesDot, colMean, pct_change, pctRows, pctRow, List.range_succ,
      List.filterMap_cons]
    simp
  have hv : quadForm (annCov (pct_change [[some 1], [some 1], [some 1]])) 1 [1] =
      .ok (some 0) := by
    norm_num [quadForm, annCov, colPairs, sampleCov, pct_change, pctRows, pctRow,
      List.range_succ, List.filterMap_cons]
  simp [calculate_sharpe_ratio, hw, hp, hv, sharpeDiv]

/-- Claim C2 (amended): `calculate_sharpe_ratio` never returns a typed
failure for zero volatility. When the weight vector, the annualized mean
return `p` and the annualized variance `v` all compute, the result is the
plain number `(p - risk_free_rate) / sqrt v` whenever `v > 0`, and a
silently non-finite float (infinity/NaN from the division by zero) when
`v = 0`; the risk-free rate defaults to `0.01`. -/
theorem C2_sharpe_cases (data : PriceTable) (h : Holdings) (rf : ℚ) (w : List ℚ) (p v : ℚ)
    (hw : portfolio_weights h = .ok w)
    (hp : seriesDot (colMean (pct_change data.rows)) data.tickers.length w = .ok (some p))
    (hv : quadForm (annCov (pct_change data.rows)) data.tickers.length w = .ok (some v)) :
    (0 < v → calculate_sharpe_ratio data h rf =
      .ok (some (((p - rf : ℚ) : ℝ) / Real.sqrt v)))
    ∧ (v = 0 → calculate_sharpe_ratio data h rf = .ok none)
    ∧ calculate_sharpe_ratio_default data h = calculate_sharpe_ratio data h (1 / 100) := by
  refine ⟨?_, ?_, rfl⟩
  · intro hpos
    have hnle : ¬v ≤ 0 := not_le.2 hpos
    simp [calculate_sharpe_ratio, hw, hp, hv, sharpeDiv, hnle]
  · intro h0
    subst h0
    simp [calculate_sharpe_ratio, hw, hp, hv, sharpeDiv]

/-- Witness for C2: a single ticker with one +100% day and six flat days in
8 price rows gives annualized mean return 36 and annualized variance 36,
so the Sharpe ratio is the plain value `(36 - 0.01) / sqrt 36`. -/
theorem C2_witness :
    calculate_sharpe_ratio
      ⟨["A"], [[some 1], [some 2], [some 2], [some 2], [some 2], [some 2], [some 2], [some 2]]⟩
      [("A", 1)] (1 / 100) =
      .ok (some ((((36 : ℚ) - 1 / 100 : ℚ) : ℝ) / Real.sqrt ((36 : ℚ) : ℝ))) := by
  have hw : portfolio_weights [("A", 1)] = .ok [1] := by
    norm_num [portfolio_weights, totalValue]
  have hp : seriesDot
      (colMean (pct_change [[some 1], [some 2], [some 2], [some 2], [some 2], [some 2],
        [some 2], [some 2]]))
      1 [1] = .ok (some 36) := by
    norm_num [seriesDot, colMean, pct_change, pctRows, pctRow, List.range_succ,
      List.filterMap_cons]
    simp
    norm_num
  have hv : quadForm
      (annCov (pct_change [[some 1], [some 2], [some 2], [some 2], [some 2], [some 2],
        [some 2], [some 2]]))
      1 [1] = .ok (some 36) := by
    norm_num [quadForm, annCov, pct_change, pctRows, pctRow, colPairs, sampleCov,
      List.range_succ, List.filterMap_cons]
  exact (C2_sharpe_cases
    ⟨["A"], [[some 1], [some 2], [some 2], [some 2], [some 2], [some 2], [some 2], [some 2]]⟩
    [("A", 1)] (1 / 100) [1] 36 36 hw hp hv).1 (by norm_num)

lemma getD_map_none (r : List (Option ℚ)) (j : Nat) :
    (r.map (fun _ => (none : Option ℚ))).getD j none = none := by
  induction r generalizing j with
  | nil => simp
  | cons a t ih =>
    cases j with
    | zero => simp
    | succ m => simpa using ih m

lemma pctRow_getD_some (prev cur : List (Option ℚ)) (j : Nat) (x : ℚ)
    (hx : (pctRow prev cur).getD j none = some x) :
    (prev.getD j none).isSome ∧ (cur.getD j none).isSome := by
  induction prev generalizing cur j with
  | nil => simp [pctRow] at hx
  | cons p ps ih =>
    cases cur with
    | nil => simp [pctRow] at hx
    | cons c cs =>
      cases j with
      | zero =>
        cases p with
        | none => simp [pctRow] at hx
        | some a =>
          cases c with
          | none => simp [pctRow] at hx
          | some b => simp
      | succ m =>
        have hx2 : (pctRow ps cs).getD m none = some x := by
          simpa [pctRow] using hx
        simpa using ih cs m hx2

lemma pairObs_cons_le (r : List (Option ℚ)) (rs : List (List (Option ℚ))) (j k : Nat) :
    pairObs rs j k ≤ pairObs (r :: rs) j k := by
  simp only [pairObs, List.filter_cons]
  split
  · simp
  · exact le_refl _

lemma pctRows_overlap (rs : List (List (Option ℚ))) (prev : List (Option ℚ)) (j k : Nat)
    (hne : colPairs (pctRows prev rs) j k ≠ []) :
    2 ≤ pairObs (prev :: rs) j k := by
  induction rs generalizing prev with
  | nil => simp [pctRows, colPairs] at hne
  | cons cur cs ih =>
    cases hj : (pctRow prev cur).getD j none with
    | some x =>
      cases hk : (pctRow prev cur).getD k none with
      | some y =>
        have h1 := pctRow_getD_some prev cur j x hj
        have h2 := pctRow_getD_some prev cur k y hk
        simp only [List.getD_eq_getElem?_getD] at h1 h2
        have hp : ((prev[j]?.getD none).isSome && (prev[k]?.getD none).isSome) = true := by
          simp [h1.1, h2.1]
        have hcur : ((cur[j]?.getD none).isSome && (cur[k]?.getD none).isSome) = true := by
          simp [h1.2, h2.2]
        have hstep : 2 + pairObs cs j k ≤ pairObs (prev :: cur :: cs) j k := by
          simp [pairObs, List.filter_cons, hp, hcur]
          omega
        omega
      | none =>
        rw [List.getD_eq_getElem?_getD] at hj hk
        have htail : colPairs (pctRows cur cs) j k ≠ [] := by
          simpa [pctRows, colPairs, List.filterMap_cons, hj, hk] using hne
        calc 2 ≤ pairObs (cur :: cs) j k := ih cur htail
        _ ≤ pairObs (prev :: cur :: cs) j k := pairObs_cons_le _ _ _ _
    | none =>
      rw [List.getD_eq_getElem?_getD] at hj
      have htail : colPairs (pctRows cur cs) j k ≠ [] := by
        simpa [pctRows, colPairs, List.filterMap_cons, hj] using hne
      calc 2 ≤ pairObs (cur :: cs) j k := ih cur htail
      _ ≤ pairObs (prev :: cur :: cs) j k := pairObs_cons_le _ _ _ _

lemma vol_unfold (data : PriceTable) (h : Holdings) (w : List ℚ) (v : Option ℚ)
    (hw : portfolio_weights h = .ok w)
    (hq : quadForm (annCov (pct_change data.rows)) data.tickers.length w = .ok v) :
    calculate_portfolio_volatility data h = .ok (npSqrt v) := by
  unfold calculate_portfolio_volatility
  rw [hw]
  simp only [except_ok_bind]
  rw [hq]
  simp only [except_ok_bind, except_pure]

set_option maxHeartbeats 1000000 in
/-- Claim C7 counterexample: with two tickers whose price histories never
overlap (fewer than 2 common dates), `calculate_portfolio_volatility` does
not return a typed `InsufficientData` failure — it returns normally with a
NaN float (`.ok none`): the undefined covariance silently propagates. -/
theorem C7_counterexample :
    calculate_portfolio_volatility
      ⟨["A", "B"], [[some 1, none], [some 2, none], [none, some 3], [none, some 4]]⟩
      [("A", 1), ("B", 1)] = .ok none := by
  have hw : portfolio_weights [("A", 1), ("B", 1)] = .ok [1 / 2, 1 / 2] := by
    norm_num [portfolio_weights, totalValue]
  have hq : quadForm
      (annCov (pct_change [[some 1, none], [some 2, none], [none, some 3], [none, some 4]]))
      2 [1 / 2, 1 / 2] = .ok none := by
    norm_num [quadForm, annCov, colPairs, sampleCov, pct_change, pctRows, pctRow,
      List.range_succ, List.filterMap_cons]
  exact vol_unfold
    ⟨["A", "B"], [[some 1, none], [some 2, none], [none, some 3], [none, some 4]]⟩
    [("A", 1), ("B", 1)] [1 / 2, 1 / 2] none hw hq

/-- Claim C7 (amended): when two table columns `j` and `k` share fewer than
2 overlapping price observations (and the weight computation itself
succeeds and is aligned with the table), the volatility operation returns a
NaN float (`.ok none`) — the pandas covariance entry for that pair is NaN
and contaminates the quadratic form and the square root — instead of the
typed `InsufficientData` failure the spec names. -/
theorem C7_insufficient_overlap_gives_nan (data : PriceTable) (h : Holdings) (j k : Nat)
    (hj : j < data.tickers.length) (hk : k < data.tickers.length)
    (hlen : h.length = data.tickers.length) (ht : totalValue h ≠ 0)
    (hobs : pairObs data.rows j k < 2) :
    calculate_portfolio_volatility data h = .ok none := by
  have hw : portfolio_weights h = .ok (h.map (fun q => q.2 / totalValue h)) := by
    simp [portfolio_weights, ht]
  have hcp : colPairs (pct_change data.rows) j k = [] := by
    by_contra hne2
    cases hr : data.rows with
    | nil => rw [hr] at hne2; simp [pct_change, colPairs] at hne2
    | cons r rs =>
      rw [hr] at hne2
      have htail : colPairs (pctRows r rs) j k ≠ [] := by
        simpa [pct_change, colPairs, List.filterMap_cons, getD_map_none] using hne2
      have h2 := pctRows_overlap rs r j k htail
      rw [hr] at hobs
      omega
  have hcov : annCov (pct_change data.rows) j k = none := by
    simp [annCov, sampleCov, hcp]
  have hfalse : ((List.range data.tickers.length).all (fun j2 =>
      (List.range data.tickers.length).all (fun k2 =>
        (annCov (pct_change data.rows) j2 k2).isSome))) = false := by
    rw [List.all_eq_false]
    refine ⟨j, List.mem_range.2 hj, ?_⟩
    rw [Bool.not_eq_true, List.all_eq_false]
    exact ⟨k, List.mem_range.2 hk, by simp [hcov]⟩
  have hq : quadForm (annCov (pct_change data.rows)) data.tickers.length
      (h.map (fun q => q.2 / totalValue h)) = .ok none := by
    rw [quadForm, if_pos (by simp [hlen])]
    rw [hfalse]
    simp
  exact vol_unfold data h _ none hw hq

/-- Witness for C7: tickers A and B overlap on exactly one date, so their
covariance is undefined and the volatility comes back as a NaN float. -/
theorem C7_witness :
    calculate_portfolio_volatility
      ⟨["A", "B"], [[some 1, some 5], [some 2, none], [none, some 3]]⟩
      [("A", 3), ("B", 1)] = .ok none := by
  refine C7_insufficient_overlap_gives_nan
    ⟨["A", "B"], [[some 1, some 5], [some 2, none], [none, some 3]]⟩
    [("A", 3), ("B", 1)] 0 1 (by norm_num) (by norm_num) (by norm_num)
    (by norm_num [totalValue]) ?_
  simp [pairObs, List.filter]

lemma sum_map_div_general {α : Type} (l : List α) (f : α → ℚ) (t : ℚ) :
    (l.map (fun x => f x / t)).sum = (l.map f).sum / t := by
  induction l with
  | nil => simp
  | cons a l ih => simp [ih, add_div]

lemma zipWith_mul_map {α : Type} (l : List α) (f g : α → ℚ) :
    List.zipWith (fun v w => v * w) (l.map f) (l.map g) = l.map (fun x => f x * g x) := by
  induction l with
  | nil => simp
  | cons a l ih => simp [ih]

lemma div_div_same (X S T : ℚ) (hT : T ≠ 0) : (X / T) / (S / T) = X / S := by
  by_cases hS : S = 0
  · subst hS
    simp
  · field_simp

lemma pfWeightedSum_map_some {α : Type} (l : List α) (f g : α → ℚ) :
    pfWeightedSum (l.map (fun x => some (f x))) (l.map g) =
      some ((l.map (fun x => f x * g x)).sum) := by
  induction l with
  | nil => simp [pfWeightedSum]
  | cons a l ih => simp [pfWeightedSum, pfAdd, ih] at *; simp [pfWeightedSum, pfAdd, ih]

lemma holdings_total_pos (h : Holdings) (hpos : ∀ q ∈ h, 0 < q.2) (hne : h ≠ []) :
    0 < totalValue h := by
  refine List.sum_pos _ ?_ ?_
  · intro x hx
    obtain ⟨q, hq, rfl⟩ := List.mem_map.1 hx
    exact hpos q hq
  · simpa using hne

lemma peLoop_ok (info : PEInfo) (total : ℚ) (h : Holdings) (ht : total ≠ 0) :
    peLoop info total h = .ok
      ((validRatios info h).map (fun q => peOf info q.1),
       (validRatios info h).map (fun q => q.2 / total)) := by
  induction h with
  | nil => simp [peLoop, validRatios]
  | cons a t ih =>
    cases hpe : pyOr (info a.1).1 (info a.1).2 with
    | some pe =>
      simp [peLoop, hpe, pyDivQ, ht, ih, validRatios, List.filter_cons, peOf]
    | none =>
      simp [peLoop, hpe, ih, validRatios, List.filter_cons]

lemma peLoop_empty (info : PEInfo) (total : ℚ) (h : Holdings)
    (hv : ∀ a b, (a, b) ∈ h → pyOr (info a).1 (info a).2 = none) :
    peLoop info total h = .ok ([], []) := by
  induction h with
  | nil => simp [peLoop]
  | cons a t ih =>
    have hpe := hv a.1 a.2 (by simp)
    have ih2 := ih (fun x y hxy => hv x y (List.mem_cons_of_mem a hxy))
    simp [peLoop, hpe, ih2]

/-- Claim C5 counterexample: Python's `or` is truthiness-based, so a present
forward P/E of 0.0 is not used — with no trailing P/E the ticker is excluded
entirely and the operation returns the no-valid-ratios error string, whereas
the claim ("forward P/E if available") demands the value 0 be used. -/
theorem C5_counterexample :
    calculate_portfolio_pe_ratio (fun _ => (some 0, none)) [("A", 1)] =
      .ok (.str "Error: No valid P/E ratios found for the given tickers") := by
  simp [calculate_portfolio_pe_ratio, peLoop, pyOr, totalValue]

/-- Claim C5 (amended): per ticker the code uses the forward P/E if it is
present and nonzero (Python truthiness), else the trailing P/E if present; a
ticker with forward P/E 0 and no trailing P/E is excluded. The weighted
average renormalizes over the included tickers' own dollar total, and when
no ticker is included the operation returns the error string (the original's
string-typed stand-in for `NoValidRatios`). The claim's worked example
(A: 6000 with forward 20, B: 4000 with trailing 10 -> 16.0) still holds. -/
theorem C5_pe_truthiness_and_renormalize (info : PEInfo) (h : Holdings)
    (hpos : ∀ q ∈ h, 0 < q.2) :
    (validRatios info h ≠ [] →
      calculate_portfolio_pe_ratio info h =
        .ok (.num (((validRatios info h).map (fun q => peOf info q.1 * q.2)).sum
          / ((validRatios info h).map Prod.snd).sum)))
    ∧ (validRatios info h = [] →
      calculate_portfolio_pe_ratio info h =
        .ok (.str "Error: No valid P/E ratios found for the given tickers")) := by
  constructor
  · intro hvr
    have hne : h ≠ [] := by
      intro he
      subst he
      simp [validRatios] at hvr
    have htot : 0 < totalValue h := holdings_total_pos h hpos hne
    have hS : 0 < ((validRatios info h).map Prod.snd).sum := by
      refine List.sum_pos _ ?_ ?_
      · intro x hx
        obtain ⟨q, hq, rfl⟩ := List.mem_map.1 hx
        exact hpos q (List.mem_of_mem_filter hq)
      · simpa using hvr
    have hloop := peLoop_ok info (totalValue h) h htot.ne'
    unfold calculate_portfolio_pe_ratio
    simp only [hloop, except_ok_bind]
    rw [if_neg (by simpa using hvr)]
    have hws : ((validRatios info h).map (fun q => q.2 / totalValue h)).sum =
        ((validRatios info h).map Prod.snd).sum / totalValue h := sum_map_snd_div _ _
    have hwsne : ((validRatios info h).map (fun q => q.2 / totalValue h)).sum ≠ 0 := by
      rw [hws]
      exact div_ne_zero hS.ne' htot.ne'
    rw [npAverageQ, if_neg hwsne]
    rw [zipWith_mul_map]
    have hmul : ((validRatios info h).map
        (fun q => peOf info q.1 * (q.2 / totalValue h))).sum =
        ((validRatios info h).map (fun q => peOf info q.1 * q.2)).sum / totalValue h := by
      rw [← sum_map_div_general (validRatios info h)
        (fun q => peOf info q.1 * q.2) (totalValue h)]
      congr 1
      refine List.map_congr_left ?_
      intro q hq
      ring
    rw [hmul, hws, div_div_same _ _ _ htot.ne']
    rfl
  · intro hvr
    have hall : ∀ a b, (a, b) ∈ h → pyOr (info a).1 (info a).2 = none := by
      intro a b hab
      have := hvr
      simp only [validRatios, List.filter_eq_nil_iff] at this
      have h2 := this (a, b) hab
      simpa using h2
    have hloop := peLoop_empty info (totalValue h) h hall
    unfold calculate_portfolio_pe_ratio
    simp only [hloop, except_ok_bind]
    simp

/-- Witness for C5 at the claim's worked example: A has only a forward P/E
of 20, B only a trailing P/E of 10, holdings 6000/4000, and the weighted
P/E is 16. -/
theorem C5_witness :
    calculate_portfolio_pe_ratio
      (fun t => if t = "A" then (some 20, none) else (none, some 10))
      [("A", 6000), ("B", 4000)] = .ok (.num 16) := by
  have hd : ("B" : String) ≠ "A" := by decide
  have hc := (C5_pe_truthiness_and_renormalize
    (fun t => if t = "A" then (some 20, none) else (none, some 10))
    [("A", 6000), ("B", 4000)]
    (by intro q hq; simp [List.mem_cons] at hq; rcases hq with rfl | rfl <;> norm_num)).1
  rw [hc (by simp [validRatios, pyOr, hd])]
  norm_num [validRatios, pyOr, peOf, hd]

lemma retLoop_ok (hist : HistFn) (total : ℚ) (h : Holdings) (ht : total ≠ 0) :
    retLoop hist total h = .ok
      ((validReturns hist h).map (fun q =>
        npDivQ ((hist q.1).getLastD 0 - (hist q.1).headD 0) ((hist q.1).headD 0)),
       (validReturns hist h).map (fun q => q.2 / total)) := by
  induction h with
  | nil => simp [retLoop, validReturns]
  | cons a t ih =>
    by_cases he : (hist a.1).isEmpty
    · simp [retLoop, he, ih, validReturns, List.filter_cons]
    · simp [retLoop, he, pyDivQ, ht, ih, validReturns, List.filter_cons]

/-- Claim C4: a ticker whose window history is empty is excluded from the
single-window weighted return, and `np.average` divides by the sum of the
included weights, so the result is the weighted average over the surviving
tickers renormalized by the survivors' own dollar total (the original
portfolio total cancels). -/
theorem C4_empty_history_excluded_and_renormalized (hist : HistFn) (h : Holdings)
    (hpos : ∀ q ∈ h, 0 < q.2) (hvr : validReturns hist h ≠ [])
    (hhead : ∀ q ∈ validReturns hist h, (hist q.1).headD 0 ≠ 0) :
    calculate_52_week_return hist h =
      .ok (.num (some (((validReturns hist h).map
          (fun q => windowReturn (hist q.1) * q.2)).sum
        / ((validReturns hist h).map Prod.snd).sum))) := by
  have hne : h ≠ [] := by
    intro he
    subst he
    simp [validReturns] at hvr
  have htot : 0 < totalValue h := holdings_total_pos h hpos hne
  have hS : 0 < ((validReturns hist h).map Prod.snd).sum := by
    refine List.sum_pos _ ?_ ?_
    · intro x hx
      obtain ⟨q, hq, rfl⟩ := List.mem_map.1 hx
      exact hpos q (List.mem_of_mem_filter hq)
    · simpa using hvr
  have hloop := retLoop_ok hist (totalValue h) h htot.ne'
  unfold calculate_52_week_return
  simp only [hloop, except_ok_bind]
  rw [if_neg (by simpa using hvr)]
  have hvals : (validReturns hist h).map (fun q =>
      npDivQ ((hist q.1).getLastD 0 - (hist q.1).headD 0) ((hist q.1).headD 0)) =
      (validReturns hist h).map (fun q => some (windowReturn (hist q.1))) := by
    refine List.map_congr_left ?_
    intro q hq
    have hh := hhead q hq
    rw [List.headD_eq_head?] at hh
    simp [npDivQ, hh, windowReturn]
  rw [hvals]
  have hws : ((validReturns hist h).map (fun q => q.2 / totalValue h)).sum =
      ((validReturns hist h).map Prod.snd).sum / totalValue h := sum_map_snd_div _ _
  have hwsne : ((validReturns hist h).map (fun q => q.2 / totalValue h)).sum ≠ 0 := by
    rw [hws]
    exact div_ne_zero hS.ne' htot.ne'
  rw [npAverageF, if_neg hwsne]
  rw [pfWeightedSum_map_some]
  have hmul : ((validReturns hist h).map
      (fun q => windowReturn (hist q.1) * (q.2 / totalValue h))).sum =
      ((validReturns hist h).map (fun q => windowReturn (hist q.1) * q.2)).sum
        / totalValue h := by
    rw [← sum_map_div_general (validReturns hist h)
      (fun q => windowReturn (hist q.1) * q.2) (totalValue h)]
    congr 1
    refine List.map_congr_left ?_
    intro q hq
    ring
  rw [hmul, hws]
  simp [pfDiv, div_ne_zero hS.ne' htot.ne', div_div_same _ _ _ htot.ne']

/-- Witness for C4 at the claim's example: holdings A:5000 and B:5000 where
B has no data; the portfolio return is A's own return 10%, not 5%. -/
theorem C4_witness :
    calculate_52_week_return (fun t => if t = "A" then [100, 110] else [])
      [("A", 5000), ("B", 5000)] = .ok (.num (some (1 / 10))) := by
  have hd : ("B" : String) ≠ "A" := by decide
  rw [C4_empty_history_excluded_and_renormalized
    (fun t => if t = "A" then [100, 110] else []) [("A", 5000), ("B", 5000)]
    (by intro q hq; simp [List.mem_cons] at hq; rcases hq with rfl | rfl <;> norm_num)
    (by simp [validReturns, hd])
    (by intro q hq; simp [validReturns, hd] at hq; simp [hq])]
  norm_num [validReturns, windowReturn, hd]

lemma resolveAll_ok (periods : List String)
    (hsafe : ∀ p ∈ periods, ∃ d, _period_to_days p = .ok d) :
    resolveAll periods = .ok (periods.map (fun p => (p, resolveD p))) := by
  induction periods with
  | nil => simp [resolveAll]
  | cons p ps ih =>
    obtain ⟨d, hd⟩ := hsafe p (List.mem_cons_self p ps)
    have ih2 := ih (fun q hq => hsafe q (List.mem_cons_of_mem p hq))
    simp [resolveAll, hd, ih2, resolveD]

lemma tickerLoop_nosurv (data : PriceTable) (sr er : List (Option ℚ)) (total : ℚ)
    (h : Holdings) (hs : ∀ a b, (a, b) ∈ h → a ∉ data.tickers) :
    tickerLoop data sr er total h = .ok ([], []) := by
  induction h with
  | nil => simp [tickerLoop]
  | cons a t ih =>
    have hm := hs a.1 a.2 (by simp)
    have ih2 := ih (fun x y hxy => hs x y (List.mem_cons_of_mem a hxy))
    simp [tickerLoop, hm, ih2]

lemma tickerLoop_ok (data : PriceTable) (sr er : List (Option ℚ)) (total : ℚ)
    (h : Holdings) (ht : total ≠ 0) :
    tickerLoop data sr er total h = .ok
      ((survivors data h).map (fun q =>
         pfDiv (pfSub (er.getD (data.tickers.indexOf q.1) none)
                      (sr.getD (data.tickers.indexOf q.1) none))
               (sr.getD (data.tickers.indexOf q.1) none)),
       (survivors data h).map (fun q => q.2 / total)) := by
  induction h with
  | nil => simp [tickerLoop, survivors]
  | cons a t ih =>
    by_cases hm : a.1 ∈ data.tickers
    · simp [tickerLoop, hm, pyDivQ, ht, ih, survivors, List.filter_cons]
    · simp [tickerLoop, hm, ih, survivors, List.filter_cons]

lemma pfWeightedSum_scale (vals : List PyFloat) (l : Holdings) (T : ℚ) :
    pfWeightedSum vals (l.map (fun q => q.2 / T)) =
      (pfWeightedSum vals (l.map Prod.snd)).map (fun x => x / T) := by
  induction vals generalizing l with
  | nil => simp [pfWeightedSum, zero_div]
  | cons v vs ih =>
    cases l with
    | nil => simp [pfWeightedSum, zero_div]
    | cons a t =>
      have ih2 := ih t
      cases v with
      | none => simp [pfWeightedSum, pfAdd]
      | some x =>
        simp only [pfWeightedSum, List.map_cons, List.zipWith_cons_cons,
          List.foldr_cons] at ih2 ⊢
        cases hw : (List.zipWith (fun v w => Option.map (fun x => x * w) v) vs
            (t.map Prod.snd)).foldr pfAdd (some 0) with
        | none =>
          rw [hw] at ih2
          rw [ih2]
          simp [pfAdd]
        | some s =>
          rw [hw] at ih2
          rw [ih2]
          simp [pfAdd]
          ring

lemma pfDiv_scale (x : PyFloat) (S T : ℚ) (hT : T ≠ 0) :
    pfDiv (x.map (fun y => y / T)) (some (S / T)) = pfDiv x (some S) := by
  cases x with
  | none => simp [pfDiv]
  | some a =>
    by_cases hS : S = 0
    · subst hS
      simp [pfDiv]
    · have h1 : S / T ≠ 0 := div_ne_zero hS hT
      simp [pfDiv, h1, hS, div_div_same a S T hT]

lemma survivors_sum_pos (data : PriceTable) (h : Holdings)
    (hpos : ∀ q ∈ h, 0 < q.2) (hs : survivors data h ≠ []) :
    0 < ((survivors data h).map Prod.snd).sum := by
  refine List.sum_pos _ ?_ ?_
  · intro x hx
    obtain ⟨q, hq, rfl⟩ := List.mem_map.1 hx
    exact hpos q (List.mem_of_mem_filter hq)
  · simpa using hs

lemma periodEntry_eq (data : PriceTable) (h : Holdings) (days : Int)
    (hpos : ∀ q ∈ h, 0 < q.2) (hd : 0 ≤ days) :
    periodEntry data h (totalValue h) days =
      .ok (if days ≠ 0 ∧ days ≤ (data.rows.length : Int)
           then sliceReturn data h days else none) := by
  by_cases hcond : days ≠ 0 ∧ days ≤ (data.rows.length : Int)
  case neg => simp [periodEntry, hcond]
  case pos =>
    obtain ⟨hd0, hdle⟩ := hcond
    have hd1 : 1 ≤ days := by omega
    have hiloc1 : pandasIloc data.rows (-days) =
        .ok (data.rows.getD (data.rows.length - days.toNat) []) := by
      rw [pandasIloc, if_neg (by omega), if_pos (by omega)]
      have he : ((data.rows.length : Int) + -days).toNat =
          data.rows.length - days.toNat := by omega
      rw [he]
    have hiloc2 : pandasIloc data.rows (-1) =
        .ok (data.rows.getD (data.rows.length - 1) []) := by
      rw [pandasIloc, if_neg (by omega), if_pos (by omega)]
      have he : ((data.rows.length : Int) + -1).toNat = data.rows.length - 1 := by
        omega
      rw [he]
    rw [periodEntry, if_pos ⟨hd0, hdle⟩]
    simp only [hiloc1, hiloc2, except_ok_bind]
    cases hsurv : survivors data h with
    | nil =>
      have hs2 : ∀ a b, (a, b) ∈ h → a ∉ data.tickers := by
        intro a b hab hmem
        have : (a, b) ∈ survivors data h := by
          rw [survivors]
          exact List.mem_filter.2 ⟨hab, by simpa using hmem⟩
        rw [hsurv] at this
        simp at this
      have hloop := tickerLoop_nosurv data
        (data.rows.getD (data.rows.length - days.toNat) [])
        (data.rows.getD (data.rows.length - 1) []) (totalValue h) h hs2
      rw [hloop]
      simp only [except_ok_bind]
      simp [sliceReturn, hsurv, hd0, hdle]
    | cons s0 st =>
      have hsne : survivors data h ≠ [] := by rw [hsurv]; simp
      have hne : h ≠ [] := by
        intro he
        subst he
        simp [survivors] at hsurv
      have htot : 0 < totalValue h := holdings_total_pos h hpos hne
      have hS : 0 < ((survivors data h).map Prod.snd).sum :=
        survivors_sum_pos data h hpos hsne
      have hloop := tickerLoop_ok data
        (data.rows.getD (data.rows.length - days.toNat) [])
        (data.rows.getD (data.rows.length - 1) []) (totalValue h) h htot.ne'
      rw [hloop]
      simp only [except_ok_bind]
      rw [if_neg (by simpa using hsne)]
      have hws : ((survivors data h).map (fun q => q.2 / totalValue h)).sum =
          ((survivors data h).map Prod.snd).sum / totalValue h := sum_map_snd_div _ _
      have hwsne : ((survivors data h).map (fun q => q.2 / totalValue h)).sum ≠ 0 := by
        rw [hws]
        exact div_ne_zero hS.ne' htot.ne'
      rw [npAverageF, if_neg hwsne]
      simp only [except_ok_bind, except_pure]
      rw [if_pos ⟨hd0, hdle⟩, sliceReturn]
      simp only [hsurv]
      rw [← hsurv]
      rw [if_neg (by simpa using hsne)]
      rw [pfWeightedSum_scale, hws, pfDiv_scale _ _ _ htot.ne']

lemma goPeriods_ok (data : PriceTable) (h : Holdings)
    (hpos : ∀ q ∈ h, 0 < q.2) (pds : List (String × Int))
    (hall : ∀ x ∈ pds, 0 ≤ x.2) :
    goPeriods data h (totalValue h) pds = .ok (pds.map (fun x =>
      (x.1, if x.2 ≠ 0 ∧ x.2 ≤ (data.rows.length : Int)
            then sliceReturn data h x.2 else none))) := by
  induction pds with
  | nil => simp [goPeriods]
  | cons pd rest ih =>
    have hpe := periodEntry_eq data h pd.2 hpos (hall pd (List.mem_cons_self pd rest))
    have ih2 := ih (fun x hx => hall x (List.mem_cons_of_mem pd hx))
    simp [goPeriods, hpe, ih2]

/-- Claim C1 counterexample: one malformed period label makes the whole
batch fail. Resolving `"xy"` reaches `int("x")`, which raises `ValueError`
inside the dict comprehension of line 177; neither the valid `"1y"` nor any
other period produces a result — contradicting "no single bad period label
causes the whole batch to fail". -/
theorem C1_counterexample :
    fetch_portfolio_returns ["1y", "xy"] [("A", 1)] ⟨["A"], []⟩ = .error .valueError := by
  have h1 : _period_to_days "1y" = .ok 252 := by decide
  have h2 : _period_to_days "xy" = .error .valueError := by decide
  simp [fetch_portfolio_returns, resolveAll, h1, h2]

/-- Claim C1 (amended): when the period list is non-empty (an empty list
makes `max()` raise `ValueError`) and every label resolves without an
exception to a non-negative day count (labels with a recognized suffix but a
malformed numeric prefix raise `ValueError` and abort the whole batch), and
all holdings amounts are positive, the batch returns exactly one entry per
requested period in order: `None` for a period resolving to 0 or to more
days than the table has rows, and otherwise the sliced weighted return over
the holdings tickers that are table columns, renormalized by the survivors'
own dollar total (`None` if no holdings ticker is a column). -/
theorem C1_per_period_batch (periods : List String) (h : Holdings) (data : PriceTable)
    (hne : periods ≠ [])
    (hsafe : ∀ p ∈ periods, ∃ d, _period_to_days p = .ok d ∧ 0 ≤ d)
    (hpos : ∀ q ∈ h, 0 < q.2) :
    fetch_portfolio_returns periods h data =
      .ok (periods.map (fun p =>
        (p, if resolveD p ≠ 0 ∧ resolveD p ≤ (data.rows.length : Int)
            then sliceReturn data h (resolveD p) else none))) := by
  have hres := resolveAll_ok periods
    (fun p hp => ⟨(hsafe p hp).choose, (hsafe p hp).choose_spec.1⟩)
  have hall : ∀ x ∈ periods.map (fun p => (p, resolveD p)), 0 ≤ x.2 := by
    intro x hx
    obtain ⟨p, hp, rfl⟩ := List.mem_map.1 hx
    obtain ⟨d, hd, hd0⟩ := hsafe p hp
    have hrd : resolveD p = d := by simp [resolveD, hd]
    simpa [hrd] using hd0
  have hgo := goPeriods_ok data h hpos (periods.map (fun p => (p, resolveD p))) hall
  cases hper : periods with
  | nil => exact absurd hper hne
  | cons p0 ps =>
    rw [hper] at hres hgo
    simp only [List.map_cons] at hgo
    unfold fetch_portfolio_returns
    simp only [hres, except_ok_bind, List.map_cons, listMaxInt, except_ok_bind]
    rw [hgo]
    simp only [List.map_map]
    rfl

set_option maxHeartbeats 1000000 in
/-- Witness for C1: three periods over a 3-row table — `"2d"` is computed,
`"5d"` exceeds the history, `"0d"` resolves to the sentinel 0; each gets its
own entry and the bad periods do not disturb the good one. -/
theorem C1_witness :
    fetch_portfolio_returns ["2d", "5d", "0d"] [("A", 10)]
      ⟨["A"], [[some 1], [some 2], [some 4]]⟩ =
      .ok [("2d", some (some 1)), ("5d", none), ("0d", none)] := by
  have e2 : resolveD "2d" = 2 := by decide
  have e5 : resolveD "5d" = 5 := by decide
  have e0 : resolveD "0d" = 0 := by decide
  rw [C1_per_period_batch ["2d", "5d", "0d"] [("A", 10)]
    ⟨["A"], [[some 1], [some 2], [some 4]]⟩ (by simp)
    (by
      intro p hp
      fin_cases hp
      · exact ⟨2, by decide, by decide⟩
      · exact ⟨5, by decide, by decide⟩
      · exact ⟨0, by decide, by decide⟩)
    (by intro q hq; simp [List.mem_cons] at hq; subst hq; norm_num)]
  have hs2 : sliceReturn ⟨["A"], [[some 1], [some 2], [some 4]]⟩ [("A", 10)] 2 =
      some (some 1) := by
    rw [sliceReturn]
    norm_num [survivors, List.indexOf, List.findIdx_cons,
      show (3 : Nat) - (2 : Int).toNat = 1 by decide,
      pfWeightedSum, pfDiv, pfSub, pfAdd]
  norm_num [e2, e5, e0, hs2]

end Portfolio
